import Mathlib

/-!
Verification development for the kunpocc-event dispatcher
(src/src/event/EventManager.ts, src/src/event/Command.ts, src/src/event/Event.ts).

Shallow embedding notes:
* JS `Map` and `Set` are insertion-ordered; they are modelled by association
  lists (`List (k × v)`) and duplicate-free lists, with `Map.set` replacing in
  place and appending fresh keys at the end, exactly as the JS containers do.
* `target` is an opaque identity in the spec; it is modelled as `Option Nat`
  (`none` = the absent/default target).  Event names are `String`s.
* Callbacks are opaque user code that may re-enter the manager; they are
  modelled as programs (`List Act`) looked up in a fixed environment by a
  numeric code index, interpreted by a fuelled interpreter further below.
  A callback is therefore never "null": the source's null-callback check is
  unrepresentable in the model, while the empty-name check is kept.
* A thrown JS exception is modelled by the interpreter returning the flag
  `true` together with the state at the throw point; it propagates outwards
  exactly as in JS (no handler exists anywhere in EventManager).
-/

/-- Maximum recursion depth constant (EventManager.ts line 14). -/
def MAX_RECURSION_DEPTH : Nat := 20

/-- Association list lookup, mirroring JS `Map.get` (and `Map.has` via `Option.isSome`). -/
def alookup {α β : Type} [DecidableEq α] : List (α × β) → α → Option β
  | [], _ => none
  | (k, v) :: rest, a => if k = a then some v else alookup rest a

/-- Association list update, mirroring JS `Map.set`: replace in place if the key
is present, append at the end otherwise (JS Maps keep insertion order). -/
def aset {α β : Type} [DecidableEq α] : List (α × β) → α → β → List (α × β)
  | [], a, b => [(a, b)]
  | (k, v) :: rest, a, b => if k = a then (a, b) :: rest else (k, v) :: aset rest a b

/-- Association list deletion, mirroring JS `Map.delete`. -/
def aerase {α β : Type} [DecidableEq α] (l : List (α × β)) (a : α) : List (α × β) :=
  l.filter (fun p => p.1 != a)

/-- Insertion-ordered set add, mirroring JS `Set.add`. -/
def sadd (l : List Nat) (x : Nat) : List Nat :=
  if x ∈ l then l else l ++ [x]

/-- Set element deletion, mirroring JS `Set.delete`. -/
def sdel (l : List Nat) (x : Nat) : List Nat :=
  l.filter (fun y => y != x)

/-- Registration record (Event.ts).  `cb` is the index of the callback's
program in the interpreter's environment. -/
structure Event where
  id : Nat
  name : String
  target : Option Nat
  once : Bool
  cb : Nat
deriving DecidableEq, Repr

/-- CommandType enum (Command.ts). -/
inductive CommandType where
  | add
  | removeById
  | removeByName
  | removeByTarget
  | removeByNameAndTarget
  | clearAll
deriving DecidableEq, Repr

/-- Command record (Command.ts).  The unused fields of each variant are `none`/`0`
where the source leaves them null. -/
structure Command where
  type : CommandType
  eventId : Nat
  event : Option Event
  name : Option String
  target : Option Nat
deriving DecidableEq, Repr

/-- CommandManager (Command.ts).  The source's `commands`/`index`/`length`
object-reuse scheme is represented by its logical content: the pending
commands `commands[0..index)` plus the `clearAll` flag. -/
structure CommandManager where
  pending : List Command
  clearAllFlag : Bool
deriving DecidableEq, Repr

/-- CommandManager.addEvent: queue an Add command for a record registered
mid-broadcast.  Note the source appends unconditionally, even when the
clearAll flag is already set. -/
def CommandManager.addEvent (cm : CommandManager) (ev : Event) : CommandManager :=
  { cm with pending := cm.pending ++ [⟨CommandType.add, 0, some ev, none, none⟩] }

/-- CommandManager.add: queue a removal or clear command.  A ClearAll request
only sets the flag and is never appended to the pending list. -/
def CommandManager.addCmd (cm : CommandManager) (t : CommandType) (eventId : Nat)
    (name : Option String) (target : Option Nat) : CommandManager :=
  if t = CommandType.clearAll then { cm with clearAllFlag := true }
  else { cm with pending := cm.pending ++ [⟨t, eventId, none, name, target⟩] }

/-- CommandManager.clear. -/
def CommandManager.clearCm (_ : CommandManager) : CommandManager :=
  ⟨[], false⟩

/-- Modelled from the spec: `EventFactory.ts` (the Record Pool) is imported by
EventManager.ts but is not under src/.  Per spec §4.4 and §3, `allocate`
returns a recycled record if one is free (otherwise constructs a new one) and
the registration path assigns a fresh, monotonically increasing id that is
never reused even after recycling; `recycle` clears the record's fields and
returns it to the free list.  Since recycled fields are always overwritten on
allocation, the pool's observable content reduces to the fresh-id counter and
the size of the free list. -/
structure EventFactory where
  nextId : Nat
  freeCount : Nat
deriving DecidableEq, Repr

/-- Modelled from the spec: allocate a record and produce a fresh unique id. -/
def EventFactory.allocate (f : EventFactory) : Nat × EventFactory :=
  (f.nextId, ⟨f.nextId + 1, f.freeCount - 1⟩)

/-- Modelled from the spec: clear a record's fields and return it to the free list. -/
def EventFactory.recycle (f : EventFactory) : EventFactory :=
  ⟨f.nextId, f.freeCount + 1⟩

/-- EventManager state (EventManager.ts fields). -/
structure EM where
  sending_depth : Nat
  events : List (Nat × Event)
  nameToIds : List (String × List Nat)
  targetToIds : List (Nat × List Nat)
  factory : EventFactory
  commandManager : CommandManager
deriving DecidableEq, Repr

/-- EventManager._addEvent: index a record in `events`, `nameToIds` and (when
it has a target) `targetToIds`, creating missing buckets. -/
def EM.addEventNow (em : EM) (ev : Event) : EM :=
  let events' := aset em.events ev.id ev
  let bucket := (alookup em.nameToIds ev.name).getD []
  let nameToIds' := aset em.nameToIds ev.name (sadd bucket ev.id)
  let targetToIds' :=
    match ev.target with
    | none => em.targetToIds
    | some t =>
      let tb := (alookup em.targetToIds t).getD []
      aset em.targetToIds t (sadd tb ev.id)
  { em with events := events', nameToIds := nameToIds', targetToIds := targetToIds' }

/-- EventManager.add: validate, allocate a record with `once := false`, then
either queue it (broadcast in flight) or index it immediately; the fresh id is
returned in both cases. -/
def EM.add (em : EM) (name : String) (cb : Nat) (target : Option Nat) :
    Except Unit (Nat × EM) :=
  if name = "" then Except.error ()
  else
    let (id, fac) := em.factory.allocate
    let ev : Event := ⟨id, name, target, false, cb⟩
    let em1 := { em with factory := fac }
    if 0 < em1.sending_depth then
      Except.ok (id, { em1 with commandManager := em1.commandManager.addEvent ev })
    else
      Except.ok (id, em1.addEventNow ev)

/-- EventManager.addOnce: same as `add` but with `once := true`. -/
def EM.addOnce (em : EM) (name : String) (cb : Nat) (target : Option Nat) :
    Except Unit (Nat × EM) :=
  if name = "" then Except.error ()
  else
    let (id, fac) := em.factory.allocate
    let ev : Event := ⟨id, name, target, true, cb⟩
    let em1 := { em with factory := fac }
    if 0 < em1.sending_depth then
      Except.ok (id, { em1 with commandManager := em1.commandManager.addEvent ev })
    else
      Except.ok (id, em1.addEventNow ev)

/-- EventManager.remove: unknown ids are a no-op before the in-flight check;
otherwise queue mid-broadcast, or unindex and recycle directly. -/
def EM.remove (em : EM) (eventId : Nat) : EM :=
  match alookup em.events eventId with
  | none => em
  | some ev =>
    if 0 < em.sending_depth then
      { em with commandManager :=
          em.commandManager.addCmd CommandType.removeById eventId none none }
    else
      let em1 := { em with events := aerase em.events eventId,
                           factory := em.factory.recycle }
      let em2 :=
        match alookup em1.nameToIds ev.name with
        | some ids => { em1 with nameToIds := aset em1.nameToIds ev.name (sdel ids eventId) }
        | none => em1
      match ev.target with
      | none => em2
      | some t =>
        match alookup em2.targetToIds t with
        | some ids => { em2 with targetToIds := aset em2.targetToIds t (sdel ids eventId) }
        | none => em2

/-- Body of the `eventIds.forEach` loop inside EventManager.removeByName. -/
def EM.removeByNameStep (acc : EM) (eventId : Nat) : EM :=
  match alookup acc.events eventId with
  | none => acc
  | some ev =>
    let acc1 :=
      match ev.target with
      | some t =>
        match alookup acc.targetToIds t with
        | some tids =>
          { acc with targetToIds := aset acc.targetToIds t (sdel tids eventId) }
        | none => acc
      | none => acc
    { acc1 with events := aerase acc1.events eventId,
                factory := acc1.factory.recycle }

/-- EventManager.removeByName: absent or empty name bucket is a no-op before
the in-flight check; otherwise queue mid-broadcast, or remove every record of
the bucket and drop the bucket. -/
def EM.removeByName (em : EM) (name : String) : EM :=
  match alookup em.nameToIds name with
  | none => em
  | some eventIds =>
    if eventIds = [] then em
    else if 0 < em.sending_depth then
      { em with commandManager :=
          em.commandManager.addCmd CommandType.removeByName 0 (some name) none }
    else
      let em1 := eventIds.foldl EM.removeByNameStep em
      { em1 with nameToIds := aerase em1.nameToIds name }

/-- Body of the `eventIds.forEach` loop inside EventManager.removeByTarget. -/
def EM.removeByTargetStep (acc : EM) (eventId : Nat) : EM :=
  match alookup acc.events eventId with
  | none => acc
  | some ev =>
    let acc1 :=
      match alookup acc.nameToIds ev.name with
      | some nids =>
        { acc with nameToIds := aset acc.nameToIds ev.name (sdel nids eventId) }
      | none => acc
    { acc1 with events := aerase acc1.events eventId,
                factory := acc1.factory.recycle }

/-- EventManager.removeByTarget: absent or empty target bucket is a no-op
before the in-flight check; otherwise queue mid-broadcast, or remove every
record of the bucket and drop the bucket. -/
def EM.removeByTarget (em : EM) (target : Nat) : EM :=
  match alookup em.targetToIds target with
  | none => em
  | some eventIds =>
    if eventIds = [] then em
    else if 0 < em.sending_depth then
      { em with commandManager :=
          em.commandManager.addCmd CommandType.removeByTarget 0 none (some target) }
    else
      let em1 := eventIds.foldl EM.removeByTargetStep em
      { em1 with targetToIds := aerase em1.targetToIds target }

/-- EventManager.removeByNameAndTarget: no-op when the name bucket is absent,
or either candidate set is absent/empty (all checked before the in-flight
check); otherwise queue mid-broadcast, or scan the smaller candidate set and
remove each intersection member.  The source reads `this.events.get(eventId)`
without a liveness check; the model's `none` branch keeps such a stale id out
of the removal list. -/
def EM.removeByNameAndTarget (em : EM) (name : String) (target : Nat) : EM :=
  match alookup em.nameToIds name with
  | none => em
  | some nameIds =>
    match alookup em.targetToIds target with
    | none => em
    | some targetIds =>
      if nameIds = [] ∨ targetIds = [] then em
      else if 0 < em.sending_depth then
        { em with commandManager :=
            (em.commandManager.addCmd CommandType.removeByNameAndTarget 0
              (some name) (some target)) }
      else
        let needRemoveIds :=
          if nameIds.length < targetIds.length then
            nameIds.filter (fun eventId =>
              match alookup em.events eventId with
              | some ev => ev.target == some target
              | none => false)
          else
            targetIds.filter (fun eventId =>
              match alookup em.events eventId with
              | some ev => ev.name == name
              | none => false)
        needRemoveIds.foldl EM.remove em

/-- EventManager.clearAll: queue (set the ClearAll flag) mid-broadcast;
otherwise recycle every record, clear all indices and the command queue, and
reset the sending depth. -/
def EM.clearAll (em : EM) : EM :=
  if 0 < em.sending_depth then
    { em with commandManager :=
        em.commandManager.addCmd CommandType.clearAll 0 none none }
  else
    { sending_depth := 0
      events := []
      nameToIds := []
      targetToIds := []
      factory := em.events.foldl (fun f _ => f.recycle) em.factory
      commandManager := em.commandManager.clearCm }

/-- The per-command switch of EventManager.send's queue drain.  Unreachable
null fields fall through as no-ops. -/
def EM.applyCommand (em : EM) (c : Command) : EM :=
  match c.type with
  | CommandType.add =>
    match c.event with
    | some ev => em.addEventNow ev
    | none => em
  | CommandType.removeById => em.remove c.eventId
  | CommandType.removeByName =>
    match c.name with
    | some n => em.removeByName n
    | none => em
  | CommandType.removeByTarget =>
    match c.target with
    | some t => em.removeByTarget t
    | none => em
  | CommandType.removeByNameAndTarget =>
    match c.name, c.target with
    | some n, some t => em.removeByNameAndTarget n t
    | _, _ => em
  | CommandType.clearAll => em.clearAll

/-- CommandManager.forEach as used by EventManager.send: with the ClearAll
flag set, apply a single synthetic ClearAll command (which itself clears the
queue); otherwise apply the pending commands in FIFO order and reset the
queue index. -/
def EM.drainCommands (em : EM) : EM :=
  if em.commandManager.clearAllFlag then
    em.applyCommand ⟨CommandType.clearAll, 0, none, none, none⟩
  else
    let em1 := em.commandManager.pending.foldl EM.applyCommand em
    { em1 with commandManager := { em1.commandManager with pending := [] } }

/-- The match condition of EventManager.send's snapshot loop:
`!target || target === event.target`. -/
def targetMatches (target : Option Nat) (ev : Event) : Bool :=
  target.isNone || target == ev.target

/-- The trigger list built by EventManager.send's snapshot loop: live bucket
records that match the broadcast target, in bucket (= registration) order. -/
def buildTrigger (em : EM) (ids : List Nat) (target : Option Nat) : List Event :=
  ids.filterMap (fun eventId =>
    match alookup em.events eventId with
    | none => none
    | some ev => if targetMatches target ev then some ev else none)

/-- The `needRemoveIds` list built by EventManager.send's snapshot loop: stale
ids, plus matched once-flagged ids, in bucket order. -/
def buildNeedRemove (em : EM) (ids : List Nat) (target : Option Nat) : List Nat :=
  ids.filter (fun eventId =>
    match alookup em.events eventId with
    | none => true
    | some ev => targetMatches target ev && ev.once)

/-- One primitive step of a callback program (or of a top-level driver
script).  `addVar`/`addOnceVar` store the returned id in variable slot `v`;
`removeVar` removes by the id stored in slot `v`.  `throwErr` models a JS
`throw` inside a callback. -/
inductive Act where
  | mark (m : Nat)
  | markArgs
  | throwErr
  | send (name : String) (target : Option Nat) (args : List Nat)
  | addVar (v : Nat) (name : String) (cb : Nat) (target : Option Nat)
  | addOnceVar (v : Nat) (name : String) (cb : Nat) (target : Option Nat)
  | removeVar (v : Nat)
  | removeId (i : Nat)
  | removeName (name : String)
  | removeTarget (t : Nat)
  | removeNameTarget (name : String) (t : Nat)
  | clearAllAct
deriving DecidableEq, Repr

/-- Interpreter request: run a list of acts with the callback arguments in
scope, invoke a trigger list (the callback loop of EventManager.send), or
perform one EventManager.send call. -/
inductive Req where
  | acts (args : List Nat) (todo : List Act)
  | invoke (args : List Nat) (evs : List Event)
  | sendReq (name : String) (target : Option Nat) (args : List Nat)
deriving DecidableEq, Repr

/-- Interpreter state: the manager, the variable store for returned ids, the
trace of callback observations, and the console-error log of refused sends
(event name, depth at refusal, configured maximum). -/
structure St where
  em : EM
  vars : List (Nat × Nat)
  trace : List Nat
  log : List (String × Nat × Nat)
deriving DecidableEq, Repr

/-- The fuelled interpreter.  `env` maps a callback code index to its program.
Fuel only bounds the total number of interpreter steps (every recursive call
consumes one unit); it is a modelling artifact, not part of the source.  The
returned flag is `true` when a JS exception is in flight: it aborts the
remaining acts of the throwing callback, the remaining callbacks of every
enclosing broadcast pass, each enclosing send's depth decrement and cleanup,
and propagates to the top — exactly the unwinding the source performs, which
has no try/catch anywhere.  The `Req.sendReq` case is EventManager.send:
depth guard (refuse and log), absent/empty bucket no-ops, snapshot of the
trigger and needRemove lists, depth increment, synchronous callback loop,
depth decrement, and the depth-0 cleanup (once-removals then queue drain). -/
def interp (env : Nat → List Act) : Nat → St → Req → Option (St × Bool)
  | 0, _, _ => none
  | _ + 1, st, Req.acts _ [] => some (st, false)
  | fuel + 1, st, Req.acts args (a :: rest) =>
    match a with
    | Act.mark m => interp env fuel { st with trace := st.trace ++ [m] } (Req.acts args rest)
    | Act.markArgs => interp env fuel { st with trace := st.trace ++ args } (Req.acts args rest)
    | Act.throwErr => some (st, true)
    | Act.send n t as =>
      match interp env fuel st (Req.sendReq n t as) with
      | none => none
      | some (st', true) => some (st', true)
      | some (st', false) => interp env fuel st' (Req.acts args rest)
    | Act.addVar v n cb t =>
      match st.em.add n cb t with
      | Except.error _ => some (st, true)
      | Except.ok (id, em') =>
        interp env fuel { st with em := em', vars := aset st.vars v id } (Req.acts args rest)
    | Act.addOnceVar v n cb t =>
      match st.em.addOnce n cb t with
      | Except.error _ => some (st, true)
      | Except.ok (id, em') =>
        interp env fuel { st with em := em', vars := aset st.vars v id } (Req.acts args rest)
    | Act.removeVar v =>
      interp env fuel { st with em := st.em.remove ((alookup st.vars v).getD 0) }
        (Req.acts args rest)
    | Act.removeId i =>
      interp env fuel { st with em := st.em.remove i } (Req.acts args rest)
    | Act.removeName n =>
      interp env fuel { st with em := st.em.removeByName n } (Req.acts args rest)
    | Act.removeTarget t =>
      interp env fuel { st with em := st.em.removeByTarget t } (Req.acts args rest)
    | Act.removeNameTarget n t =>
      interp env fuel { st with em := st.em.removeByNameAndTarget n t } (Req.acts args rest)
    | Act.clearAllAct =>
      interp env fuel { st with em := st.em.clearAll } (Req.acts args rest)
  | _ + 1, st, Req.invoke _ [] => some (st, false)
  | fuel + 1, st, Req.invoke args (ev :: rest) =>
    match interp env fuel st (Req.acts args (env ev.cb)) with
    | none => none
    | some (st', true) => some (st', true)
    | some (st', false) => interp env fuel st' (Req.invoke args rest)
  | fuel + 1, st, Req.sendReq name target args =>
    if MAX_RECURSION_DEPTH ≤ st.em.sending_depth then
      some ({ st with
        log := st.log ++ [(name, st.em.sending_depth, MAX_RECURSION_DEPTH)] }, false)
    else
      match alookup st.em.nameToIds name with
      | none => some (st, false)
      | some eventIds =>
        if eventIds = [] then some (st, false)
        else
          let needRemoveIds := buildNeedRemove st.em eventIds target
          let triggerList := buildTrigger st.em eventIds target
          let st1 := { st with
            em := { st.em with sending_depth := st.em.sending_depth + 1 } }
          match interp env fuel st1 (Req.invoke args triggerList) with
          | none => none
          | some (st2, true) => some (st2, true)
          | some (st2, false) =>
            let em3 := { st2.em with sending_depth := st2.em.sending_depth - 1 }
            if em3.sending_depth = 0 then
              let em4 := needRemoveIds.foldl EM.remove em3
              some ({ st2 with em := em4.drainCommands }, false)
            else
              some ({ st2 with em := em3 }, false)

/-- The empty manager; the fresh-id counter starts at 1 (the source's initial
counter value lives in the missing EventFactory.ts; only monotonicity matters). -/
def initEM : EM := ⟨0, [], [], [], ⟨1, 0⟩, ⟨[], false⟩⟩

/-- Initial interpreter state. -/
def initSt : St := ⟨initEM, [], [], []⟩

/-- Run a top-level driver script against a fresh manager. -/
def runScript (env : Nat → List Act) (fuel : Nat) (script : List Act) :
    Option (St × Bool) :=
  interp env fuel initSt (Req.acts [] script)

/-- Scenario C1: callback 0 broadcasts "B" from inside a broadcast of "A";
callback 1 is a once-listener on "B" and leaves marker 7. -/
def envC1 : Nat → List Act
  | 0 => [Act.send "B" none []]
  | 1 => [Act.mark 7]
  | _ => []

/-- Scenario C1 driver: register "A", register-once "B", send "A" (which
matches the once-listener inside the nested broadcast), then send "B" again. -/
def scriptC1 : List Act :=
  [Act.addVar 0 "A" 0 none, Act.addOnceVar 1 "B" 1 none,
   Act.send "A" none [], Act.send "B" none []]

/-- Scenario C1 contrast driver: the same once-listener matched by a
top-level broadcast, then sent again. -/
def scriptC1top : List Act :=
  [Act.addOnceVar 1 "B" 1 none, Act.send "B" none [], Act.send "B" none []]

/-- Scenario C2: the first listener on "X" marks 1 and throws; the second
would mark 2. -/
def envC2 : Nat → List Act
  | 0 => [Act.mark 1, Act.throwErr]
  | 1 => [Act.mark 2]
  | _ => []

def scriptC2 : List Act :=
  [Act.addVar 0 "X" 0 none, Act.addVar 1 "X" 1 none, Act.send "X" none []]

/-- Scenario C3: during the broadcast of "x", its listener queues a removal of
itself, calls clearAll, and then registers a listener on "y" — one mutation
queued before the ClearAll and one after. -/
def envC3 : Nat → List Act
  | 0 => [Act.mark 1, Act.removeVar 9, Act.clearAllAct, Act.addVar 8 "y" 1 none]
  | 1 => [Act.mark 5]
  | _ => []

def scriptC3 : List Act :=
  [Act.addVar 9 "x" 0 none, Act.send "x" none [], Act.send "x" none [],
   Act.send "y" none []]

/-- Scenario C4: the listener on "t" registers a fresh listener on "t"
(marker 9) during the broadcast. -/
def envC4 : Nat → List Act
  | 0 => [Act.addVar 5 "t" 1 none]
  | 1 => [Act.mark 9]
  | _ => []

def scriptC4 : List Act :=
  [Act.addVar 0 "t" 0 none, Act.send "t" none [], Act.send "t" none []]

/-- Scenario C5: a listener that marks and unconditionally re-sends its own
event. -/
def envC5 : Nat → List Act
  | 0 => [Act.mark 1, Act.send "r" none []]
  | _ => []

def scriptC5 : List Act := [Act.addVar 0 "r" 0 none, Act.send "r" none []]

/-- Scenario C6/C7 callbacks: callback `k` marks `k` (and for C7 also marks
the received broadcast arguments). -/
def envC6 : Nat → List Act
  | k => [Act.mark k]

def scriptC6a : List Act :=
  [Act.addVar 0 "t" 1 (some 10), Act.addVar 1 "t" 2 (some 20),
   Act.addVar 2 "t" 3 none, Act.send "t" (some 10) []]

def scriptC6b : List Act :=
  [Act.addVar 0 "t" 1 (some 10), Act.addVar 1 "t" 2 (some 20),
   Act.addVar 2 "t" 3 none, Act.send "t" none []]

def envC7 : Nat → List Act
  | k => [Act.mark k, Act.markArgs]

def scriptC7 : List Act :=
  [Act.addVar 0 "t" 1 none, Act.addVar 1 "t" 2 none, Act.addVar 2 "t" 3 none,
   Act.send "t" none [9]]

/-- Scenario C8 (the spec's Bug #1 regression): register-once "e1", fire it
(registration recycled), register "e2", remove the stale old id, send "e2". -/
def envC8 : Nat → List Act
  | 1 => [Act.mark 3]
  | _ => []

def scriptC8 : List Act :=
  [Act.addOnceVar 0 "e1" 0 none, Act.send "e1" none [],
   Act.addVar 1 "e2" 1 none, Act.removeVar 0, Act.send "e2" none []]

/-- Scenario C10: during the broadcast of "t", the listener registers a fresh
listener (only queued as an Add entry) and immediately removes it by id. -/
def envC10 : Nat → List Act
  | 0 => [Act.addVar 5 "t" 1 none, Act.removeVar 5]
  | 1 => [Act.mark 9]
  | _ => []

def scriptC10 : List Act :=
  [Act.addVar 0 "t" 0 none, Act.send "t" none [], Act.send "t" none []]

/-- Witness state: an otherwise fresh manager already at the maximum
broadcast depth. -/
def stMax : St := ⟨⟨20, [], [], [], ⟨1, 0⟩, ⟨[], false⟩⟩, [], [], []⟩

/-- Witness state: a manager one broadcast deep. -/
def emMid : EM := ⟨1, [], [], [], ⟨4, 0⟩, ⟨[], false⟩⟩

/-- Witness state: a quiescent manager with one record and the queued
ClearAll flag set. -/
def emFlag : EM :=
  ⟨0, [(1, ⟨1, "a", none, false, 0⟩)], [("a", [1])], [], ⟨2, 3⟩, ⟨[], true⟩⟩

/-- Witness state: a quiescent manager with one listener on "a" and a stale
pair of buckets used by the removal no-op witnesses. -/
def emW : EM :=
  ⟨0, [(1, ⟨1, "a", some 5, false, 0⟩)], [("a", [1]), ("b", [])],
   [(5, [1]), (6, [])], ⟨2, 0⟩, ⟨[], false⟩⟩

/-- Witness state: a quiescent manager whose "a"/target-7 buckets exist but
intersect in no live record. -/
def emW9 : EM :=
  ⟨0, [], [("a", [1])], [(7, [2])], ⟨3, 0⟩, ⟨[], false⟩⟩

/-- Witness state: a manager one broadcast deep, wrapped as an interpreter state. -/
def stMid : St := ⟨emMid, [], [], []⟩

/-- Witness state: the result of `emMid.add "a" 0 none` (id 4 allocated, the
record queued as an Add entry). -/
def emAfterMidAdd : EM :=
  ⟨1, [], [], [], ⟨5, 0⟩,
   ⟨[⟨CommandType.add, 0, some ⟨4, "a", none, false, 0⟩, none, none⟩], false⟩⟩

/-- Witness state: a quiescent manager whose fresh-id counter is 9. -/
def emW8 : EM := ⟨0, [], [], [], ⟨9, 2⟩, ⟨[], false⟩⟩

/-- Witness state: `emW8` after `add "z" 1 none`. -/
def emW8a : EM :=
  ⟨0, [(9, ⟨9, "z", none, false, 1⟩)], [("z", [9])], [], ⟨10, 1⟩, ⟨[], false⟩⟩

/-- Witness state: `emW8` after `addOnce "z" 1 none`. -/
def emW8b : EM :=
  ⟨0, [(9, ⟨9, "z", none, true, 1⟩)], [("z", [9])], [], ⟨10, 1⟩, ⟨[], false⟩⟩

/-- Witness environment: every callback immediately throws. -/
def envThrow : Nat → List Act
  | _ => [Act.throwErr]

/-- Witness record for the exception-propagation witness. -/
def evThrow : Event := ⟨1, "x", none, false, 0⟩

/-- Witness state: one throwing listener registered on "q". -/
def stQ : St := ⟨⟨0, [(1, evThrow)], [("q", [1])], [], ⟨2, 0⟩, ⟨[], false⟩⟩, [], [], []⟩

/-- Witness state: `stQ` one broadcast deep, as left behind by the aborted send. -/
def stQ1 : St := ⟨⟨1, [(1, evThrow)], [("q", [1])], [], ⟨2, 0⟩, ⟨[], false⟩⟩, [], [], []⟩

/-- Relation between the interpreter state before and after a run: the
fresh-id counter never decreases; and when the run starts while a broadcast
is in flight (depth ≥ 1) the three indices are unchanged, and the sending
depth is restored unless an exception is in flight. -/
def StInv (s s' : St) (b : Bool) : Prop :=
  s.em.factory.nextId ≤ s'.em.factory.nextId ∧
  (1 ≤ s.em.sending_depth →
    s'.em.events = s.em.events ∧ s'.em.nameToIds = s.em.nameToIds ∧
    s'.em.targetToIds = s.em.targetToIds ∧
    (b = false → s'.em.sending_depth = s.em.sending_depth))

/-- Folding a state transformer that preserves an observation preserves it. -/
theorem foldl_pres {β α γ : Type} (f : β → α → β) (g : β → γ)
    (hf : ∀ em a, g (f em a) = g em) :
    ∀ (l : List α) (em : β), g (l.foldl f em) = g em := by
  intro l
  induction l with
  | nil => intro em; rfl
  | cons a l ih => intro em; rw [List.foldl_cons, ih, hf]

/-- EM.remove never changes the fresh-id counter. -/
theorem remove_nextId (em : EM) (i : Nat) :
    (em.remove i).factory.nextId = em.factory.nextId := by
  unfold EM.remove
  split
  · rfl
  · split
    · rfl
    · dsimp only
      (repeat' split) <;> rfl

/-- EM.remove never changes the sending depth. -/
theorem remove_depth (em : EM) (i : Nat) :
    (em.remove i).sending_depth = em.sending_depth := by
  unfold EM.remove
  split
  · rfl
  · split
    · rfl
    · dsimp only
      (repeat' split) <;> rfl

/-- Mid-broadcast, EM.remove never touches the three indices. -/
theorem remove_indices (em : EM) (i : Nat) (hd : 0 < em.sending_depth) :
    (em.remove i).events = em.events ∧ (em.remove i).nameToIds = em.nameToIds ∧
    (em.remove i).targetToIds = em.targetToIds := by
  unfold EM.remove
  split
  · exact ⟨rfl, rfl, rfl⟩
  · rw [if_pos hd]
    exact ⟨rfl, rfl, rfl⟩

theorem removeByNameStep_nextId (acc : EM) (i : Nat) :
    (EM.removeByNameStep acc i).factory.nextId = acc.factory.nextId := by
  unfold EM.removeByNameStep
  split
  · rfl
  · dsimp only
    (repeat' split) <;> rfl

theorem removeByNameStep_depth (acc : EM) (i : Nat) :
    (EM.removeByNameStep acc i).sending_depth = acc.sending_depth := by
  unfold EM.removeByNameStep
  split
  · rfl
  · dsimp only
    (repeat' split) <;> rfl

theorem removeByTargetStep_nextId (acc : EM) (i : Nat) :
    (EM.removeByTargetStep acc i).factory.nextId = acc.factory.nextId := by
  unfold EM.removeByTargetStep
  split
  · rfl
  · dsimp only
    (repeat' split) <;> rfl

theorem removeByTargetStep_depth (acc : EM) (i : Nat) :
    (EM.removeByTargetStep acc i).sending_depth = acc.sending_depth := by
  unfold EM.removeByTargetStep
  split
  · rfl
  · dsimp only
    (repeat' split) <;> rfl

/-- EM.removeByName never changes the fresh-id counter. -/
theorem removeByName_nextId (em : EM) (n : String) :
    (em.removeByName n).factory.nextId = em.factory.nextId := by
  unfold EM.removeByName
  split
  · rfl
  · split
    · rfl
    · split
      · rfl
      · exact foldl_pres EM.removeByNameStep (fun e => e.factory.nextId)
          removeByNameStep_nextId _ em

/-- EM.removeByName never changes the sending depth. -/
theorem removeByName_depth (em : EM) (n : String) :
    (em.removeByName n).sending_depth = em.sending_depth := by
  unfold EM.removeByName
  split
  · rfl
  · split
    · rfl
    · split
      · rfl
      · exact foldl_pres EM.removeByNameStep (fun e => e.sending_depth)
          removeByNameStep_depth _ em

/-- Mid-broadcast, EM.removeByName never touches the three indices. -/
theorem removeByName_indices (em : EM) (n : String) (hd : 0 < em.sending_depth) :
    (em.removeByName n).events = em.events ∧
    (em.removeByName n).nameToIds = em.nameToIds ∧
    (em.removeByName n).targetToIds = em.targetToIds := by
  unfold EM.removeByName
  (repeat' split) <;> exact ⟨rfl, rfl, rfl⟩

/-- EM.removeByTarget never changes the fresh-id counter. -/
theorem removeByTarget_nextId (em : EM) (t : Nat) :
    (em.removeByTarget t).factory.nextId = em.factory.nextId := by
  unfold EM.removeByTarget
  split
  · rfl
  · split
    · rfl
    · split
      · rfl
      · exact foldl_pres EM.removeByTargetStep (fun e => e.factory.nextId)
          removeByTargetStep_nextId _ em

/-- EM.removeByTarget never changes the sending depth. -/
theorem removeByTarget_depth (em : EM) (t : Nat) :
    (em.removeByTarget t).sending_depth = em.sending_depth := by
  unfold EM.removeByTarget
  split
  · rfl
  · split
    · rfl
    · split
      · rfl
      · exact foldl_pres EM.removeByTargetStep (fun e => e.sending_depth)
          removeByTargetStep_depth _ em

/-- Mid-broadcast, EM.removeByTarget never touches the three indices. -/
theorem removeByTarget_indices (em : EM) (t : Nat) (hd : 0 < em.sending_depth) :
    (em.removeByTarget t).events = em.events ∧
    (em.removeByTarget t).nameToIds = em.nameToIds ∧
    (em.removeByTarget t).targetToIds = em.targetToIds := by
  unfold EM.removeByTarget
  (repeat' split) <;> exact ⟨rfl, rfl, rfl⟩

/-- EM.removeByNameAndTarget never changes the fresh-id counter. -/
theorem removeByNameAndTarget_nextId (em : EM) (n : String) (t : Nat) :
    (em.removeByNameAndTarget n t).factory.nextId = em.factory.nextId := by
  unfold EM.removeByNameAndTarget
  split
  · rfl
  · split
    · rfl
    · split
      · rfl
      · split
        · rfl
        · dsimp only
          split <;>
            exact foldl_pres EM.remove (fun e => e.factory.nextId) remove_nextId _ em

/-- EM.removeByNameAndTarget never changes the sending depth. -/
theorem removeByNameAndTarget_depth (em : EM) (n : String) (t : Nat) :
    (em.removeByNameAndTarget n t).sending_depth = em.sending_depth := by
  unfold EM.removeByNameAndTarget
  split
  · rfl
  · split
    · rfl
    · split
      · rfl
      · split
        · rfl
        · dsimp only
          split <;>
            exact foldl_pres EM.remove (fun e => e.sending_depth) remove_depth _ em

/-- Mid-broadcast, EM.removeByNameAndTarget never touches the three indices. -/
theorem removeByNameAndTarget_indices (em : EM) (n : String) (t : Nat)
    (hd : 0 < em.sending_depth) :
    (em.removeByNameAndTarget n t).events = em.events ∧
    (em.removeByNameAndTarget n t).nameToIds = em.nameToIds ∧
    (em.removeByNameAndTarget n t).targetToIds = em.targetToIds := by
  unfold EM.removeByNameAndTarget
  (repeat' split) <;> exact ⟨rfl, rfl, rfl⟩

/-- EM.clearAll never changes the fresh-id counter. -/
theorem clearAll_nextId (em : EM) :
    em.clearAll.factory.nextId = em.factory.nextId := by
  unfold EM.clearAll
  split
  · rfl
  · exact foldl_pres (fun (f : EventFactory) (_ : Nat × Event) => f.recycle)
      (fun f => f.nextId) (fun _ _ => rfl) _ em.factory

/-- Mid-broadcast, EM.clearAll only sets the queued ClearAll flag. -/
theorem clearAll_indices (em : EM) (hd : 0 < em.sending_depth) :
    em.clearAll.events = em.events ∧ em.clearAll.nameToIds = em.nameToIds ∧
    em.clearAll.targetToIds = em.targetToIds ∧
    em.clearAll.sending_depth = em.sending_depth := by
  unfold EM.clearAll
  rw [if_pos hd]
  exact ⟨rfl, rfl, rfl, rfl⟩

/-- EM.addEventNow changes neither the factory nor the sending depth. -/
theorem addEventNow_factory (em : EM) (ev : Event) :
    (em.addEventNow ev).factory = em.factory ∧
    (em.addEventNow ev).sending_depth = em.sending_depth :=
  ⟨rfl, rfl⟩

/-- EM.applyCommand never changes the fresh-id counter. -/
theorem applyCommand_nextId (em : EM) (c : Command) :
    (em.applyCommand c).factory.nextId = em.factory.nextId := by
  unfold EM.applyCommand
  rcases c with ⟨ty, i, ev, n, t⟩
  cases ty <;> dsimp only
  · cases ev <;> rfl
  · exact remove_nextId _ _
  · cases n
    · rfl
    · exact removeByName_nextId _ _
  · cases t
    · rfl
    · exact removeByTarget_nextId _ _
  · cases n
    · cases t <;> rfl
    · cases t
      · rfl
      · exact removeByNameAndTarget_nextId _ _ _
  · exact clearAll_nextId _

/-- EM.drainCommands never changes the fresh-id counter. -/
theorem drainCommands_nextId (em : EM) :
    em.drainCommands.factory.nextId = em.factory.nextId := by
  unfold EM.drainCommands
  split
  · exact applyCommand_nextId _ _
  · exact foldl_pres EM.applyCommand (fun e => e.factory.nextId) applyCommand_nextId _ em

/-- Characterisation of a successful EM.add: the returned id is the current
fresh-id counter, the counter is bumped, the depth is untouched, and
mid-broadcast the three indices are untouched (the record is only queued). -/
theorem add_ok (em : EM) (name : String) (cb : Nat) (target : Option Nat)
    (id : Nat) (em' : EM) (h : em.add name cb target = Except.ok (id, em')) :
    id = em.factory.nextId ∧ em'.factory.nextId = em.factory.nextId + 1 ∧
    em'.sending_depth = em.sending_depth ∧
    (0 < em.sending_depth →
      em'.events = em.events ∧ em'.nameToIds = em.nameToIds ∧
      em'.targetToIds = em.targetToIds) := by
  unfold EM.add at h
  by_cases hn : name = ""
  · rw [if_pos hn] at h
    exact Except.noConfusion h
  · rw [if_neg hn] at h
    dsimp only [EventFactory.allocate] at h
    by_cases hd : 0 < em.sending_depth
    · rw [if_pos hd] at h
      simp only [Except.ok.injEq, Prod.mk.injEq] at h
      obtain ⟨hid, hem⟩ := h
      subst hid hem
      exact ⟨rfl, rfl, rfl, fun _ => ⟨rfl, rfl, rfl⟩⟩
    · rw [if_neg hd] at h
      simp only [Except.ok.injEq, Prod.mk.injEq] at h
      obtain ⟨hid, hem⟩ := h
      subst hid hem
      exact ⟨rfl, rfl, rfl, fun hdd => absurd hdd hd⟩

/-- Characterisation of a successful EM.addOnce, identical to `add_ok`. -/
theorem addOnce_ok (em : EM) (name : String) (cb : Nat) (target : Option Nat)
    (id : Nat) (em' : EM) (h : em.addOnce name cb target = Except.ok (id, em')) :
    id = em.factory.nextId ∧ em'.factory.nextId = em.factory.nextId + 1 ∧
    em'.sending_depth = em.sending_depth ∧
    (0 < em.sending_depth →
      em'.events = em.events ∧ em'.nameToIds = em.nameToIds ∧
      em'.targetToIds = em.targetToIds) := by
  unfold EM.addOnce at h
  by_cases hn : name = ""
  · rw [if_pos hn] at h
    exact Except.noConfusion h
  · rw [if_neg hn] at h
    dsimp only [EventFactory.allocate] at h
    by_cases hd : 0 < em.sending_depth
    · rw [if_pos hd] at h
      simp only [Except.ok.injEq, Prod.mk.injEq] at h
      obtain ⟨hid, hem⟩ := h
      subst hid hem
      exact ⟨rfl, rfl, rfl, fun _ => ⟨rfl, rfl, rfl⟩⟩
    · rw [if_neg hd] at h
      simp only [Except.ok.injEq, Prod.mk.injEq] at h
      obtain ⟨hid, hem⟩ := h
      subst hid hem
      exact ⟨rfl, rfl, rfl, fun hdd => absurd hdd hd⟩

theorem StInv_refl (s : St) (b : Bool) : StInv s s b :=
  ⟨le_rfl, fun _ => ⟨rfl, rfl, rfl, fun _ => rfl⟩⟩

theorem StInv_trans {s s1 s2 : St} {b : Bool}
    (h1 : StInv s s1 false) (h2 : StInv s1 s2 b) : StInv s s2 b := by
  obtain ⟨m1, p1⟩ := h1
  obtain ⟨m2, p2⟩ := h2
  refine ⟨le_trans m1 m2, fun hd => ?_⟩
  obtain ⟨e1, n1, t1, d1⟩ := p1 hd
  have hd1 : 1 ≤ s1.em.sending_depth := by rw [d1 rfl]; exact hd
  obtain ⟨e2, n2, t2, d2⟩ := p2 hd1
  exact ⟨e2.trans e1, n2.trans n1, t2.trans t1, fun hb => (d2 hb).trans (d1 rfl)⟩

/-- A single manager operation that never lowers the counter and, mid-broadcast,
preserves indices and depth, satisfies the invariant for any surrounding step. -/
theorem StInv_op {s : St} {em' : EM} {vs : List (Nat × Nat)} {tr : List Nat}
    {lg : List (String × Nat × Nat)}
    (hm : s.em.factory.nextId ≤ em'.factory.nextId)
    (hi : 1 ≤ s.em.sending_depth →
      em'.events = s.em.events ∧ em'.nameToIds = s.em.nameToIds ∧
      em'.targetToIds = s.em.targetToIds ∧ em'.sending_depth = s.em.sending_depth) :
    StInv s ⟨em', vs, tr, lg⟩ false := by
  refine ⟨hm, fun hd => ?_⟩
  obtain ⟨he, hn, ht, hdep⟩ := hi hd
  exact ⟨he, hn, ht, fun _ => hdep⟩

/-- Master interpreter invariant: over any successful interpreter run, the
fresh-id counter never decreases; and over any run started while a broadcast
is in flight (sending depth ≥ 1), the three indices (`events`, `nameToIds`,
`targetToIds`) are unchanged — every mutation is deferred via the command
queue, whose drain happens only when the outermost broadcast unwinds — and
the sending depth is restored unless an exception is in flight. -/
theorem interp_inv (env : Nat → List Act) :
    ∀ (fuel : Nat) (st : St) (req : Req) (st' : St) (b : Bool),
      interp env fuel st req = some (st', b) → StInv st st' b := by
  intro fuel
  induction fuel with
  | zero =>
    intro st req st' b h
    exact Option.noConfusion h
  | succ n ih =>
    intro st req st' b h
    rcases req with ⟨args, todo⟩ | ⟨args, evs⟩ | ⟨nm, tg, sargs⟩
    · rcases todo with _ | ⟨a, rest⟩
      · simp only [interp, Option.some.injEq, Prod.mk.injEq] at h
        obtain ⟨h1, h2⟩ := h
        subst h1 h2
        exact StInv_refl st false
      · cases a with
        | mark m =>
          simp only [interp] at h
          exact ih { st with trace := st.trace ++ [m] } (Req.acts args rest) st' b h
        | markArgs =>
          simp only [interp] at h
          exact ih { st with trace := st.trace ++ args } (Req.acts args rest) st' b h
        | throwErr =>
          simp only [interp, Option.some.injEq, Prod.mk.injEq] at h
          obtain ⟨h1, h2⟩ := h
          subst h1 h2
          exact StInv_refl st true
        | send n2 t2 as2 =>
          simp only [interp] at h
          split at h
          · exact Option.noConfusion h
          · rename_i st2 heq
            simp only [Option.some.injEq, Prod.mk.injEq] at h
            obtain ⟨h1, h2⟩ := h
            subst h1 h2
            exact ih _ _ _ _ heq
          · rename_i st2 heq
            exact StInv_trans (ih _ _ _ _ heq) (ih _ _ _ _ h)
        | addVar v n2 cb2 t2 =>
          simp only [interp] at h
          split at h
          · simp only [Option.some.injEq, Prod.mk.injEq] at h
            obtain ⟨h1, h2⟩ := h
            subst h1 h2
            exact StInv_refl st true
          · rename_i id2 em2 heq
            obtain ⟨_, hnext, hdep, hind⟩ := add_ok _ _ _ _ _ _ heq
            refine StInv_trans (StInv_op ?_ ?_) (ih _ _ _ _ h)
            · rw [hnext]; exact Nat.le_succ _
            · intro hd
              obtain ⟨he, hn2, ht⟩ := hind hd
              exact ⟨he, hn2, ht, hdep⟩
        | addOnceVar v n2 cb2 t2 =>
          simp only [interp] at h
          split at h
          · simp only [Option.some.injEq, Prod.mk.injEq] at h
            obtain ⟨h1, h2⟩ := h
            subst h1 h2
            exact StInv_refl st true
          · rename_i id2 em2 heq
            obtain ⟨_, hnext, hdep, hind⟩ := addOnce_ok _ _ _ _ _ _ heq
            refine StInv_trans (StInv_op ?_ ?_) (ih _ _ _ _ h)
            · rw [hnext]; exact Nat.le_succ _
            · intro hd
              obtain ⟨he, hn2, ht⟩ := hind hd
              exact ⟨he, hn2, ht, hdep⟩
        | removeVar v =>
          simp only [interp] at h
          refine StInv_trans (StInv_op (remove_nextId _ _).ge ?_) (ih _ _ _ _ h)
          intro hd
          obtain ⟨he, hn2, ht⟩ := remove_indices _ _ hd
          exact ⟨he, hn2, ht, remove_depth _ _⟩
        | removeId i =>
          simp only [interp] at h
          refine StInv_trans (StInv_op (remove_nextId _ _).ge ?_) (ih _ _ _ _ h)
          intro hd
          obtain ⟨he, hn2, ht⟩ := remove_indices _ _ hd
          exact ⟨he, hn2, ht, remove_depth _ _⟩
        | removeName n2 =>
          simp only [interp] at h
          refine StInv_trans (StInv_op (removeByName_nextId _ _).ge ?_) (ih _ _ _ _ h)
          intro hd
          obtain ⟨he, hn2, ht⟩ := removeByName_indices _ _ hd
          exact ⟨he, hn2, ht, removeByName_depth _ _⟩
        | removeTarget t2 =>
          simp only [interp] at h
          refine StInv_trans (StInv_op (removeByTarget_nextId _ _).ge ?_) (ih _ _ _ _ h)
          intro hd
          obtain ⟨he, hn2, ht⟩ := removeByTarget_indices _ _ hd
          exact ⟨he, hn2, ht, removeByTarget_depth _ _⟩
        | removeNameTarget n2 t2 =>
          simp only [interp] at h
          refine StInv_trans (StInv_op (removeByNameAndTarget_nextId _ _ _).ge ?_)
            (ih _ _ _ _ h)
          intro hd
          obtain ⟨he, hn2, ht⟩ := removeByNameAndTarget_indices _ _ _ hd
          exact ⟨he, hn2, ht, removeByNameAndTarget_depth _ _ _⟩
        | clearAllAct =>
          simp only [interp] at h
          refine StInv_trans (StInv_op (clearAll_nextId _).ge ?_) (ih _ _ _ _ h)
          intro hd
          exact clearAll_indices _ hd
    · rcases evs with _ | ⟨ev, rest⟩
      · simp only [interp, Option.some.injEq, Prod.mk.injEq] at h
        obtain ⟨h1, h2⟩ := h
        subst h1 h2
        exact StInv_refl st false
      · simp only [interp] at h
        split at h
        · exact Option.noConfusion h
        · rename_i st2 heq
          simp only [Option.some.injEq, Prod.mk.injEq] at h
          obtain ⟨h1, h2⟩ := h
          subst h1 h2
          exact ih _ _ _ _ heq
        · rename_i st2 heq
          exact StInv_trans (ih _ _ _ _ heq) (ih _ _ _ _ h)
    · simp only [interp] at h
      split at h
      · simp only [Option.some.injEq, Prod.mk.injEq] at h
        obtain ⟨h1, h2⟩ := h
        subst h1 h2
        exact ⟨le_rfl, fun _ => ⟨rfl, rfl, rfl, fun _ => rfl⟩⟩
      · split at h
        · simp only [Option.some.injEq, Prod.mk.injEq] at h
          obtain ⟨h1, h2⟩ := h
          subst h1 h2
          exact StInv_refl st false
        · rename_i eventIds heqb
          split at h
          · simp only [Option.some.injEq, Prod.mk.injEq] at h
            obtain ⟨h1, h2⟩ := h
            subst h1 h2
            exact StInv_refl st false
          · split at h
            · exact Option.noConfusion h
            · rename_i st2 heq
              simp only [Option.some.injEq, Prod.mk.injEq] at h
              obtain ⟨h1, h2⟩ := h
              subst h1 h2
              obtain ⟨m, p⟩ := ih _ _ _ _ heq
              obtain ⟨he, hn2, ht, _⟩ := p (Nat.succ_le_succ (Nat.zero_le _))
              exact ⟨m, fun hd => ⟨he, hn2, ht, fun hb => Bool.noConfusion hb⟩⟩
            · rename_i st2 heq
              obtain ⟨m, p⟩ := ih _ _ _ _ heq
              obtain ⟨he, hn2, ht, hdep⟩ := p (Nat.succ_le_succ (Nat.zero_le _))
              have hdep2 : st2.em.sending_depth = st.em.sending_depth + 1 := hdep rfl
              split at h
              · rename_i h0
                simp only [Option.some.injEq, Prod.mk.injEq] at h
                obtain ⟨h1, h2⟩ := h
                subst h1 h2
                refine ⟨?_, fun hd => ?_⟩
                · calc st.em.factory.nextId ≤ st2.em.factory.nextId := m
                    _ = _ := by
                      rw [drainCommands_nextId,
                        foldl_pres EM.remove (fun e => e.factory.nextId) remove_nextId]
                · exfalso
                  simp only [hdep2] at h0
                  omega
              · rename_i h0
                simp only [Option.some.injEq, Prod.mk.injEq] at h
                obtain ⟨h1, h2⟩ := h
                subst h1 h2
                refine ⟨m, fun hd => ⟨he, hn2, ht, fun _ => ?_⟩⟩
                show st2.em.sending_depth - 1 = st.em.sending_depth
                omega

theorem alookup_aset {α β : Type} [DecidableEq α] (l : List (α × β)) (k : α) (v : β) :
    alookup (aset l k v) k = some v := by
  induction l with
  | nil => simp [aset, alookup]
  | cons p rest ih =>
    obtain ⟨k1, v1⟩ := p
    by_cases hk : k1 = k
    · subst hk
      simp [aset, alookup]
    · simp [aset, alookup, hk, ih]

/-- Mid-broadcast, a valid EM.add only allocates the id and queues an Add
entry; the indices are untouched. -/
theorem add_mid (em : EM) (name : String) (cb : Nat) (target : Option Nat)
    (hn : name ≠ "") (hd : 0 < em.sending_depth) :
    em.add name cb target = Except.ok (em.factory.nextId,
      { em with factory := ⟨em.factory.nextId + 1, em.factory.freeCount - 1⟩,
                commandManager := em.commandManager.addEvent
                  ⟨em.factory.nextId, name, target, false, cb⟩ }) := by
  unfold EM.add
  rw [if_neg hn]
  dsimp only [EventFactory.allocate]
  rw [if_pos hd]

/-- Quiescent, a valid EM.add indexes the record immediately. -/
theorem add_direct (em : EM) (name : String) (cb : Nat) (target : Option Nat)
    (hn : name ≠ "") (hd : em.sending_depth = 0) :
    em.add name cb target = Except.ok (em.factory.nextId,
      EM.addEventNow
        { em with factory := ⟨em.factory.nextId + 1, em.factory.freeCount - 1⟩ }
        ⟨em.factory.nextId, name, target, false, cb⟩) := by
  unfold EM.add
  rw [if_neg hn]
  dsimp only [EventFactory.allocate]
  rw [if_neg (by omega)]

/-- Recycling every record of a list grows the free list by its length. -/
theorem foldl_recycle (l : List (Nat × Event)) (f : EventFactory) :
    l.foldl (fun acc _ => acc.recycle) f = ⟨f.nextId, f.freeCount + l.length⟩ := by
  induction l generalizing f with
  | nil => rfl
  | cons p rest ih =>
    rw [List.foldl_cons, ih]
    simp only [EventFactory.recycle, EventFactory.mk.injEq, List.length_cons]
    exact ⟨trivial, by omega⟩

/-- Removing an unknown id is the identity, at any depth. -/
theorem remove_noop (em : EM) (i : Nat) (h : alookup em.events i = none) :
    em.remove i = em := by
  unfold EM.remove
  rw [h]

/-- Removing by an absent name bucket is the identity, at any depth. -/
theorem removeByName_noop_absent (em : EM) (n : String)
    (h : alookup em.nameToIds n = none) : em.removeByName n = em := by
  unfold EM.removeByName
  rw [h]

/-- Removing by an empty name bucket is the identity, at any depth. -/
theorem removeByName_noop_empty (em : EM) (n : String)
    (h : alookup em.nameToIds n = some []) : em.removeByName n = em := by
  unfold EM.removeByName
  rw [h]
  rfl

/-- Removing by an absent target bucket is the identity, at any depth. -/
theorem removeByTarget_noop_absent (em : EM) (t : Nat)
    (h : alookup em.targetToIds t = none) : em.removeByTarget t = em := by
  unfold EM.removeByTarget
  rw [h]

/-- Removing by an empty target bucket is the identity, at any depth. -/
theorem removeByTarget_noop_empty (em : EM) (t : Nat)
    (h : alookup em.targetToIds t = some []) : em.removeByTarget t = em := by
  unfold EM.removeByTarget
  rw [h]
  rfl

theorem removeByNameAndTarget_noop_nameAbsent (em : EM) (n : String) (t : Nat)
    (h : alookup em.nameToIds n = none) : em.removeByNameAndTarget n t = em := by
  unfold EM.removeByNameAndTarget
  rw [h]

theorem removeByNameAndTarget_noop_targetAbsent (em : EM) (n : String) (t : Nat)
    (h : alookup em.targetToIds t = none) : em.removeByNameAndTarget n t = em := by
  unfold EM.removeByNameAndTarget
  rcases hn : alookup em.nameToIds n with _ | ids
  · rfl
  · rw [h]

theorem removeByNameAndTarget_noop_nameEmpty (em : EM) (n : String) (t : Nat)
    (h : alookup em.nameToIds n = some []) : em.removeByNameAndTarget n t = em := by
  unfold EM.removeByNameAndTarget
  rw [h]
  rcases ht : alookup em.targetToIds t with _ | tids
  · rfl
  · simp

theorem removeByNameAndTarget_noop_targetEmpty (em : EM) (n : String) (t : Nat)
    (h : alookup em.targetToIds t = some []) : em.removeByNameAndTarget n t = em := by
  unfold EM.removeByNameAndTarget
  rcases hn : alookup em.nameToIds n with _ | ids
  · rfl
  · rw [h]
    simp

/-- Quiescent removeByNameAndTarget with both buckets present but no live
record carrying both the name and the target is the identity: both candidate
scans produce an empty removal list. -/
theorem removeByNameAndTarget_noop_nomatch (em : EM) (n : String) (t : Nat)
    (nameIds targetIds : List Nat)
    (hn : alookup em.nameToIds n = some nameIds)
    (ht : alookup em.targetToIds t = some targetIds)
    (hd : em.sending_depth = 0)
    (h1 : ∀ i ∈ nameIds, ∀ ev, alookup em.events i = some ev → ev.target ≠ some t)
    (h2 : ∀ i ∈ targetIds, ∀ ev, alookup em.events i = some ev → ev.name ≠ n) :
    em.removeByNameAndTarget n t = em := by
  unfold EM.removeByNameAndTarget
  simp only [hn, ht]
  by_cases hne : nameIds = [] ∨ targetIds = []
  · simp [hne]
  · rw [if_neg hne, if_neg (by omega : ¬0 < em.sending_depth)]
    have f1 : nameIds.filter (fun eventId =>
        match alookup em.events eventId with
        | some ev => ev.target == some t
        | none => false) = [] := by
      rw [List.filter_eq_nil_iff]
      intro i hi
      rcases hev : alookup em.events i with _ | ev
      · simp [hev]
      · simp only [hev, beq_iff_eq]
        exact h1 i hi ev hev
    have f2 : targetIds.filter (fun eventId =>
        match alookup em.events eventId with
        | some ev => ev.name == n
        | none => false) = [] := by
      rw [List.filter_eq_nil_iff]
      intro i hi
      rcases hev : alookup em.events i with _ | ev
      · simp [hev]
      · simp only [hev, beq_iff_eq]
        exact h2 i hi ev hev
    split
    · rw [f1]
      rfl
    · rw [f2]
      rfl

/-- The trigger list is the ordered filter of the live bucket records by the
broadcast-target condition. -/
theorem buildTrigger_eq (em : EM) (tgt : Option Nat) (ids : List Nat) :
    buildTrigger em ids tgt =
      (ids.filterMap (fun i => alookup em.events i)).filter
        (fun ev => targetMatches tgt ev) := by
  unfold buildTrigger
  induction ids with
  | nil => rfl
  | cons i rest ih =>
    rcases hev : alookup em.events i with _ | ev
    · simp [List.filterMap_cons, hev, ih]
    · by_cases hm : targetMatches tgt ev <;>
        simp [List.filterMap_cons, hev, hm, ih, List.filter_cons]

/-- With an absent broadcast target, every live bucket record matches. -/
theorem buildTrigger_none (em : EM) (ids : List Nat) :
    buildTrigger em ids none = ids.filterMap (fun i => alookup em.events i) := by
  rw [buildTrigger_eq]
  apply List.filter_eq_self.mpr
  intro ev _
  rfl

/-- With a present broadcast target, exactly the live bucket records whose
registered target equals it match. -/
theorem buildTrigger_some (em : EM) (ids : List Nat) (t : Nat) :
    buildTrigger em ids (some t) =
      (ids.filterMap (fun i => alookup em.events i)).filter
        (fun ev => ev.target == some t) := by
  rw [buildTrigger_eq]
  apply List.filter_congr
  intro ev _
  rcases hvt : ev.target with _ | u
  · simp [targetMatches, hvt]
  · apply Bool.eq_iff_iff.mpr
    simp only [targetMatches, hvt, Option.isNone_none, Bool.false_or, beq_iff_eq,
      Option.some.injEq, Option.isNone_some]
    exact ⟨fun h => (h.symm : u = t) ▸ rfl, fun h => (h : u = t) ▸ rfl⟩

/-- Claim C1 (code bug): a registerOnce listener whose match occurs inside a
nested broadcast is NOT removed when the outermost broadcast completes — the
once-removal list (`needRemoveIds`) is local to each send call and a nested
send skips the depth-0 cleanup, discarding its list — so the once callback
fires again on the next send of that name (first conjunct, trace [7, 7]);
matched by a top-level send the same listener fires exactly once (second
conjunct, trace [7]). -/
theorem once_listener_nested_fires_twice :
    (runScript envC1 100 scriptC1).map (fun p => (p.1.trace, p.2)) =
      some ([7, 7], false) ∧
    (runScript envC1 100 scriptC1top).map (fun p => (p.1.trace, p.2)) =
      some ([7], false) :=
  ⟨by decide, by decide⟩

/-- Claim C2 (counterexample): with two listeners on "X", the first of which
marks 1 and then throws, the broadcast aborts at the throw: the sibling
callback never runs (marker 2 absent), the exception escapes the send call
(flag true), and the sending depth is left at 1 — refuting the claim that
remaining matched callbacks still run and the error surfaces only after the
full pass. -/
theorem exception_stops_siblings_cex :
    (runScript envC2 100 scriptC2).map
      (fun p => (p.1.trace, p.1.em.sending_depth, p.2)) = some ([1], 1, true) := by
  decide

/-- Claim C2 (amended): an exception thrown by a matched callback propagates
immediately: the callback loop's result is the throw state itself, for any
remaining matched callbacks (which therefore never run), and the enclosing
send aborts without its depth decrement or cleanup (second conjunct: the
rest of the throwing callback's own act list is likewise skipped when the
exception arrives out of a nested send). -/
theorem exception_short_circuits :
    (∀ (env : Nat → List Act) (fuel : Nat) (st : St) (args : List Nat)
       (ev : Event) (rest : List Event) (st' : St),
      interp env fuel st (Req.acts args (env ev.cb)) = some (st', true) →
      interp env (fuel + 1) st (Req.invoke args (ev :: rest)) = some (st', true)) ∧
    (∀ (env : Nat → List Act) (fuel : Nat) (st : St) (args : List Nat)
       (n : String) (tg : Option Nat) (as2 : List Nat) (rest : List Act) (st' : St),
      interp env fuel st (Req.sendReq n tg as2) = some (st', true) →
      interp env (fuel + 1) st (Req.acts args (Act.send n tg as2 :: rest)) =
        some (st', true)) := by
  constructor
  · intro env fuel st args ev rest st' h
    simp only [interp, h]
  · intro env fuel st args n tg as2 rest st' h
    simp only [interp, h]

/-- Witness for `exception_short_circuits` at a concrete throwing callback. -/
theorem exception_short_circuits_witness :
    interp envThrow 2 initSt (Req.invoke [] [evThrow]) = some (initSt, true) ∧
    interp envThrow 4 stQ (Req.acts [] [Act.send "q" none [], Act.mark 1]) =
      some (stQ1, true) := by
  constructor
  · exact exception_short_circuits.1 envThrow 1 initSt [] evThrow [] initSt (by decide)
  · exact exception_short_circuits.2 envThrow 3 stQ [] "q" none [] [Act.mark 1] stQ1
      (by decide)

/-- Claim C3: a clearAll issued while a broadcast is in flight only sets the
queued ClearAll flag (first conjunct), so it takes effect only when the
outermost broadcast completes; once the flag is set, the depth-0 queue drain
ignores every pending entry — queued before or after the clearAll — and
yields the fully cleared engine: every record recycled back to the pool, all
indices empty, the command queue empty, and sending depth 0 (second
conjunct).  The closed scenario queues a removal before and a registration
after a mid-broadcast clearAll and checks both are discarded along with all
records. -/
theorem clearAll_mid_broadcast_supersedes :
    (∀ em : EM, 0 < em.sending_depth →
      em.clearAll =
        { em with commandManager :=
            { em.commandManager with clearAllFlag := true } }) ∧
    (∀ em : EM, em.sending_depth = 0 → em.commandManager.clearAllFlag = true →
      em.drainCommands =
        ⟨0, [], [], [],
          ⟨em.factory.nextId, em.factory.freeCount + em.events.length⟩,
          ⟨[], false⟩⟩) ∧
    ((runScript envC3 100 scriptC3).map
      (fun p => (p.1.trace, p.1.em.events, p.1.em.nameToIds, p.1.em.targetToIds,
        p.1.em.commandManager, p.1.em.sending_depth, p.2)) =
      some ([1], [], [], [], ⟨[], false⟩, 0, false)) := by
  refine ⟨?_, ?_, by rfl⟩
  · intro em hd
    unfold EM.clearAll
    rw [if_pos hd]
    rfl
  · intro em hd hflag
    unfold EM.drainCommands
    rw [if_pos hflag]
    unfold EM.applyCommand
    dsimp only
    unfold EM.clearAll
    rw [if_neg (by omega : ¬0 < em.sending_depth)]
    rw [foldl_recycle]
    rfl

/-- Witness for `clearAll_mid_broadcast_supersedes`: a manager one broadcast
deep only gains the flag; a flagged quiescent manager with one record drains
to the cleared engine. -/
theorem clearAll_mid_broadcast_supersedes_witness :
    EM.clearAll emMid =
      { emMid with commandManager :=
          { emMid.commandManager with clearAllFlag := true } } ∧
    EM.drainCommands emFlag =
      ⟨0, [], [], [],
        ⟨emFlag.factory.nextId, emFlag.factory.freeCount + emFlag.events.length⟩,
        ⟨[], false⟩⟩ :=
  ⟨clearAll_mid_broadcast_supersedes.1 emMid (by decide),
   clearAll_mid_broadcast_supersedes.2.1 emFlag (by decide) (by decide)⟩

/-- Claim C4: a listener registered while a broadcast is in flight is only
queued: its fresh id is returned immediately and the three indices are
untouched (first conjunct); by the general invariant (second conjunct) no
interpreter step taken at depth ≥ 1 — in particular no nested send inside the
same outermost broadcast — can change the indices that broadcasts snapshot,
so the new listener never fires during that broadcast.  The closed scenario
registers a listener on "t" during a broadcast of "t": it stays silent in
that send and marks (9) in the next one, and its id (3) was returned
immediately into variable slot 5. -/
theorem register_mid_broadcast_deferred :
    (∀ (em : EM) (name : String) (cb : Nat) (tgt : Option Nat) (id : Nat) (em' : EM),
      0 < em.sending_depth → em.add name cb tgt = Except.ok (id, em') →
      id = em.factory.nextId ∧ em'.events = em.events ∧
      em'.nameToIds = em.nameToIds ∧ em'.targetToIds = em.targetToIds ∧
      em'.commandManager =
        em.commandManager.addEvent ⟨em.factory.nextId, name, tgt, false, cb⟩) ∧
    (∀ (env : Nat → List Act) (fuel : Nat) (st : St) (req : Req) (st' : St) (b : Bool),
      1 ≤ st.em.sending_depth → interp env fuel st req = some (st', b) →
      st'.em.events = st.em.events ∧ st'.em.nameToIds = st.em.nameToIds ∧
      st'.em.targetToIds = st.em.targetToIds) ∧
    ((runScript envC4 100 scriptC4).map
      (fun p => (p.1.trace, alookup p.1.vars 5, p.2)) = some ([9], some 3, false)) := by
  refine ⟨?_, ?_, by decide⟩
  · intro em name cb tgt id em' hd h
    by_cases hn : name = ""
    · unfold EM.add at h
      rw [if_pos hn] at h
      exact Except.noConfusion h
    · rw [add_mid em name cb tgt hn hd] at h
      simp only [Except.ok.injEq, Prod.mk.injEq] at h
      obtain ⟨hid, hem⟩ := h
      subst hid hem
      exact ⟨rfl, rfl, rfl, rfl, rfl⟩
  · intro env fuel st req st' b hd h
    obtain ⟨_, p⟩ := interp_inv env fuel st req st' b h
    obtain ⟨he, hn, ht, _⟩ := p hd
    exact ⟨he, hn, ht⟩

/-- Witness for `register_mid_broadcast_deferred`: a concrete mid-broadcast
registration and a concrete depth-1 interpreter step. -/
theorem register_mid_broadcast_deferred_witness :
    (4 = emMid.factory.nextId ∧ emAfterMidAdd.events = emMid.events ∧
      emAfterMidAdd.nameToIds = emMid.nameToIds ∧
      emAfterMidAdd.targetToIds = emMid.targetToIds ∧
      emAfterMidAdd.commandManager =
        emMid.commandManager.addEvent ⟨emMid.factory.nextId, "a", none, false, 0⟩) ∧
    (stMid.em.events = stMid.em.events ∧ stMid.em.nameToIds = stMid.em.nameToIds ∧
      stMid.em.targetToIds = stMid.em.targetToIds) :=
  ⟨register_mid_broadcast_deferred.1 emMid "a" 0 none 4 emAfterMidAdd
      (by decide) (by rfl),
   register_mid_broadcast_deferred.2.1 envThrow 1 stMid (Req.acts [] []) stMid false
      (by decide) (by rfl)⟩

/-- Claim C5: a send arriving with sending depth already at the maximum (20)
is refused: the state is unchanged except for one console-error log entry
recording the event name, the current depth, and the configured maximum; no
callback runs and no exception is raised, so the engine stays usable.
Consequently (closed scenario) a listener that unconditionally re-sends its
own event is halted after exactly 20 nested invocations with one refusal
logged as ("r", 20, 20). -/
theorem depth_guard_refuses :
    (∀ (env : Nat → List Act) (fuel : Nat) (st : St) (name : String)
       (tg : Option Nat) (args : List Nat),
      MAX_RECURSION_DEPTH ≤ st.em.sending_depth →
      interp env (fuel + 1) st (Req.sendReq name tg args) =
        some ({ st with
          log := st.log ++ [(name, st.em.sending_depth, MAX_RECURSION_DEPTH)] },
          false)) ∧
    ((runScript envC5 300 scriptC5).map
      (fun p => (p.1.trace.length, p.1.log, p.2)) =
      some (20, [("r", 20, 20)], false)) := by
  refine ⟨?_, by decide⟩
  intro env fuel st name tg args h
  simp only [interp]
  rw [if_pos h]

/-- Witness for `depth_guard_refuses` at a fresh manager already at depth 20. -/
theorem depth_guard_refuses_witness :
    interp envC5 1 stMax (Req.sendReq "x" none []) =
      some ({ stMax with
        log := stMax.log ++ [("x", stMax.em.sending_depth, MAX_RECURSION_DEPTH)] },
        false) :=
  depth_guard_refuses.1 envC5 0 stMax "x" none [] (by decide)

/-- Claim C6: the trigger list of a broadcast with an absent target is every
live record of the name bucket, regardless of registered targets (first
conjunct); with a present target it is exactly the live records whose
registered target equals the broadcast's target (second conjunct).  Closed
scenarios: with listeners for target 10, target 20 and no target,
send "t" 10 reaches only the first (trace [1]) and a target-less send
reaches all three (trace [1, 2, 3]). -/
theorem send_target_filter :
    (∀ (em : EM) (ids : List Nat),
      buildTrigger em ids none = ids.filterMap (fun i => alookup em.events i)) ∧
    (∀ (em : EM) (ids : List Nat) (t : Nat),
      buildTrigger em ids (some t) =
        (ids.filterMap (fun i => alookup em.events i)).filter
          (fun ev => ev.target == some t)) ∧
    ((runScript envC6 100 scriptC6a).map (fun p => (p.1.trace, p.2)) =
      some ([1], false)) ∧
    ((runScript envC6 100 scriptC6b).map (fun p => (p.1.trace, p.2)) =
      some ([1, 2, 3], false)) :=
  ⟨buildTrigger_none, buildTrigger_some, by decide, by decide⟩

/-- Claim C7: matched callbacks run in snapshot order: the trigger list is
the order-preserving filter of the live records listed in bucket order
(first conjunct), and a quiescent registration appends the fresh id at the
end of its name bucket (second conjunct), so bucket order is registration
order; the broadcast arguments are passed through unchanged to every matched
callback (closed scenario: three listeners marking their index and then the
received argument list [9], in registration order, yield [1, 9, 2, 9, 3, 9]). -/
theorem send_order_args_passthrough :
    (∀ (em : EM) (tgt : Option Nat) (ids : List Nat),
      buildTrigger em ids tgt =
        (ids.filterMap (fun i => alookup em.events i)).filter
          (fun ev => targetMatches tgt ev)) ∧
    (∀ (em : EM) (name : String) (cb : Nat) (tgt : Option Nat) (bucket : List Nat),
      em.sending_depth = 0 → name ≠ "" →
      alookup em.nameToIds name = some bucket →
      em.factory.nextId ∉ bucket →
      (em.add name cb tgt).map (fun p => (p.1, alookup p.2.nameToIds name)) =
        Except.ok (em.factory.nextId, some (bucket ++ [em.factory.nextId]))) ∧
    ((runScript envC7 100 scriptC7).map (fun p => (p.1.trace, p.2)) =
      some ([1, 9, 2, 9, 3, 9], false)) := by
  refine ⟨buildTrigger_eq, ?_, by decide⟩
  intro em name cb tgt bucket hd hn hb hmem
  rw [add_direct em name cb tgt hn hd]
  simp only [Except.map, Except.ok.injEq, Prod.mk.injEq]
  refine ⟨trivial, ?_⟩
  unfold EM.addEventNow
  dsimp only
  rw [hb]
  simp only [Option.getD_some]
  rw [show sadd bucket em.factory.nextId = bucket ++ [em.factory.nextId] by
    unfold sadd; rw [if_neg hmem]]
  exact alookup_aset _ _ _

/-- Witness for `send_order_args_passthrough`: registering on "a" in a
quiescent manager whose bucket is [1] appends the fresh id 2. -/
theorem send_order_args_passthrough_witness :
    (EM.add emW "a" 5 none).map (fun p => (p.1, alookup p.2.nameToIds "a")) =
      Except.ok (emW.factory.nextId, some ([1] ++ [emW.factory.nextId])) :=
  send_order_args_passthrough.2.1 emW "a" 5 none [1]
    (by decide) (by decide) (by rfl) (by decide)

/-- Claim C8: every successful register/registerOnce returns the current
fresh-id counter and bumps it by one (first and second conjuncts), and no
interpreter step ever lowers the counter (third conjunct) — so across any
sequence of operations on one engine the returned ids are strictly
increasing and never reused, even after the originating record is recycled.
The closed scenario replays the spec's Bug #1 regression: the once-listener
on "e1" gets id 1, fires and is recycled; "e2" gets id 2 ≠ 1; removing the
stale id 1 afterwards leaves "e2" delivering (trace [3]). -/
theorem ids_strictly_increasing_never_reused :
    (∀ (em : EM) (name : String) (cb : Nat) (tgt : Option Nat) (id : Nat) (em' : EM),
      em.add name cb tgt = Except.ok (id, em') →
      id = em.factory.nextId ∧ em'.factory.nextId = em.factory.nextId + 1) ∧
    (∀ (em : EM) (name : String) (cb : Nat) (tgt : Option Nat) (id : Nat) (em' : EM),
      em.addOnce name cb tgt = Except.ok (id, em') →
      id = em.factory.nextId ∧ em'.factory.nextId = em.factory.nextId + 1) ∧
    (∀ (env : Nat → List Act) (fuel : Nat) (st : St) (req : Req) (st' : St) (b : Bool),
      interp env fuel st req = some (st', b) →
      st.em.factory.nextId ≤ st'.em.factory.nextId) ∧
    ((runScript envC8 100 scriptC8).map
      (fun p => (alookup p.1.vars 0, alookup p.1.vars 1, p.1.trace, p.2)) =
      some (some 1, some 2, [3], false)) := by
  refine ⟨?_, ?_, ?_, by decide⟩
  · intro em name cb tgt id em' h
    obtain ⟨h1, h2, _, _⟩ := add_ok em name cb tgt id em' h
    exact ⟨h1, h2⟩
  · intro em name cb tgt id em' h
    obtain ⟨h1, h2, _, _⟩ := addOnce_ok em name cb tgt id em' h
    exact ⟨h1, h2⟩
  · intro env fuel st req st' b h
    exact (interp_inv env fuel st req st' b h).1

/-- Witness for `ids_strictly_increasing_never_reused` at concrete add,
addOnce and interpreter runs. -/
theorem ids_strictly_increasing_never_reused_witness :
    (9 = emW8.factory.nextId ∧ emW8a.factory.nextId = emW8.factory.nextId + 1) ∧
    (9 = emW8.factory.nextId ∧ emW8b.factory.nextId = emW8.factory.nextId + 1) ∧
    initSt.em.factory.nextId ≤ initSt.em.factory.nextId :=
  ⟨ids_strictly_increasing_never_reused.1 emW8 "z" 1 none 9 emW8a (by rfl),
   ids_strictly_increasing_never_reused.2.1 emW8 "z" 1 none 9 emW8b (by rfl),
   ids_strictly_increasing_never_reused.2.2.1 envThrow 1 initSt (Req.acts [] [])
     initSt false (by rfl)⟩

/-- Claim C9: every removal operation is a no-op — returning normally with
the whole state unchanged, never an error — when nothing matches: an unknown
id, an absent or empty name bucket, an absent or empty target bucket, and,
for removeByNameAndTarget on a quiescent engine, buckets present but with no
live record carrying both the name and the target (in particular a target
with no registrations for that name). -/
theorem removals_noop_when_unmatched :
    (∀ (em : EM) (i : Nat), alookup em.events i = none → em.remove i = em) ∧
    (∀ (em : EM) (n : String), alookup em.nameToIds n = none →
      em.removeByName n = em) ∧
    (∀ (em : EM) (n : String), alookup em.nameToIds n = some [] →
      em.removeByName n = em) ∧
    (∀ (em : EM) (t : Nat), alookup em.targetToIds t = none →
      em.removeByTarget t = em) ∧
    (∀ (em : EM) (t : Nat), alookup em.targetToIds t = some [] →
      em.removeByTarget t = em) ∧
    (∀ (em : EM) (n : String) (t : Nat), alookup em.nameToIds n = none →
      em.removeByNameAndTarget n t = em) ∧
    (∀ (em : EM) (n : String) (t : Nat), alookup em.nameToIds n = some [] →
      em.removeByNameAndTarget n t = em) ∧
    (∀ (em : EM) (n : String) (t : Nat), alookup em.targetToIds t = none →
      em.removeByNameAndTarget n t = em) ∧
    (∀ (em : EM) (n : String) (t : Nat), alookup em.targetToIds t = some [] →
      em.removeByNameAndTarget n t = em) ∧
    (∀ (em : EM) (n : String) (t : Nat) (nameIds targetIds : List Nat),
      alookup em.nameToIds n = some nameIds →
      alookup em.targetToIds t = some targetIds →
      em.sending_depth = 0 →
      (∀ i ∈ nameIds, ∀ ev, alookup em.events i = some ev → ev.target ≠ some t) →
      (∀ i ∈ targetIds, ∀ ev, alookup em.events i = some ev → ev.name ≠ n) →
      em.removeByNameAndTarget n t = em) :=
  ⟨remove_noop, removeByName_noop_absent, removeByName_noop_empty,
   removeByTarget_noop_absent, removeByTarget_noop_empty,
   removeByNameAndTarget_noop_nameAbsent, removeByNameAndTarget_noop_nameEmpty,
   removeByNameAndTarget_noop_targetAbsent, removeByNameAndTarget_noop_targetEmpty,
   removeByNameAndTarget_noop_nomatch⟩

/-- Witness for `removals_noop_when_unmatched` on concrete managers: unknown
id 99, unseen name "zz", empty "b" bucket, unseen target 9, empty target-6
bucket, and non-intersecting "a"/target-7 buckets. -/
theorem removals_noop_when_unmatched_witness :
    EM.remove emW 99 = emW ∧
    EM.removeByName emW "zz" = emW ∧
    EM.removeByName emW "b" = emW ∧
    EM.removeByTarget emW 9 = emW ∧
    EM.removeByTarget emW 6 = emW ∧
    EM.removeByNameAndTarget emW "zz" 5 = emW ∧
    EM.removeByNameAndTarget emW "b" 5 = emW ∧
    EM.removeByNameAndTarget emW "a" 9 = emW ∧
    EM.removeByNameAndTarget emW "a" 6 = emW ∧
    EM.removeByNameAndTarget emW9 "a" 7 = emW9 :=
  ⟨removals_noop_when_unmatched.1 emW 99 (by rfl),
   removals_noop_when_unmatched.2.1 emW "zz" (by rfl),
   removals_noop_when_unmatched.2.2.1 emW "b" (by rfl),
   removals_noop_when_unmatched.2.2.2.1 emW 9 (by rfl),
   removals_noop_when_unmatched.2.2.2.2.1 emW 6 (by rfl),
   removals_noop_when_unmatched.2.2.2.2.2.1 emW "zz" 5 (by rfl),
   removals_noop_when_unmatched.2.2.2.2.2.2.1 emW "b" 5 (by rfl),
   removals_noop_when_unmatched.2.2.2.2.2.2.2.1 emW "a" 9 (by rfl),
   removals_noop_when_unmatched.2.2.2.2.2.2.2.2.1 emW "a" 6 (by rfl),
   removals_noop_when_unmatched.2.2.2.2.2.2.2.2.2 emW9 "a" 7 [1] [2]
     (by rfl) (by rfl) (by rfl)
     (fun i _ ev hev => Option.noConfusion hev)
     (fun i _ ev hev => Option.noConfusion hev)⟩

/-- Claim C10: every removal operation consults the live indices before the
in-flight check, so a removal aimed (by id, or by a previously unseen name or
target) at a listener that exists only as a queued Add entry is silently
dropped — the identity, with nothing queued — at any depth (first three
conjuncts).  Closed scenario: a callback registers a listener on "t" during a
broadcast of "t" and immediately removes it by its returned id; the removal
is dropped, the listener survives the drain and marks (9) on the next send. -/
theorem mid_broadcast_remove_of_queued_add_dropped :
    (∀ (em : EM) (i : Nat), alookup em.events i = none → em.remove i = em) ∧
    (∀ (em : EM) (n : String), alookup em.nameToIds n = none →
      em.removeByName n = em) ∧
    (∀ (em : EM) (t : Nat), alookup em.targetToIds t = none →
      em.removeByTarget t = em) ∧
    ((runScript envC10 100 scriptC10).map (fun p => (p.1.trace, p.2)) =
      some ([9], false)) :=
  ⟨remove_noop, removeByName_noop_absent, removeByTarget_noop_absent, by decide⟩

/-- Witness for `mid_broadcast_remove_of_queued_add_dropped` on a manager one
broadcast deep with empty indices: the removals are dropped, not queued. -/
theorem mid_broadcast_remove_of_queued_add_dropped_witness :
    EM.remove emMid 2 = emMid ∧
    EM.removeByName emMid "t" = emMid ∧
    EM.removeByTarget emMid 3 = emMid :=
  ⟨mid_broadcast_remove_of_queued_add_dropped.1 emMid 2 (by rfl),
   mid_broadcast_remove_of_queued_add_dropped.2.1 emMid "t" (by rfl),
   mid_broadcast_remove_of_queued_add_dropped.2.2.1 emMid 3 (by rfl)⟩
